import Mathlib

/-!
Verification development for `dave_packer.py`, the packer/unpacker for
Midnight Club 3 `.dat` archives.

The Python source is shallowly embedded:
* byte buffers and file contents are `List Nat` (each element a byte value);
* Python strings (paths, decoded "ANSI" text) are `List Char` — the "ANSI"
  codec is the identity byte-per-character map, embedded via `Char.toNat` /
  `Char.ofNat`;
* `file.read(k)` on an in-memory buffer at position `pos` is
  `(buf.drop pos).take k` (a short read past the end returns what is left,
  and `int.from_bytes(b"", "little") = 0`);
* the filesystem is abstracted exactly as the spec prescribes: `pack` takes
  the asset source as a list of `(path, bytes)` entries, `unpack` reports its
  output as a list of `(path, bytes)` pairs plus a `rootExists` flag for the
  destination-directory check; `zlib`'s raw-deflate compressor/decompressor
  are opaque parameters `comp` / `decomp`;
* the raw string-table decode loop does not terminate when no zero byte is
  reachable, so its embedding is `Option`-valued (`none` = divergence), and
  `unpack` as a whole is `Option`-valued for the same reason.
-/

set_option maxRecDepth 40000

namespace DavePacker

/-- Embeds `int.from_bytes(bs, "little")`. -/
def fromLE (bs : List Nat) : Nat := bs.foldr (fun b acc => b + 256 * acc) 0

/-- The four bytes of `struct.pack("<I", n)` (call sites keep `n < 2^32`). -/
def toU32LE (n : Nat) : List Nat :=
  [n % 256, n / 256 % 256, n / 65536 % 256, n / 16777216 % 256]

/-- Line 17-20: `Padding(num, pad, restOnly)`. -/
def Padding (num pad : Nat) (restOnly : Bool) : Nat :=
  if restOnly then
    if num % pad = 0 then 0 else pad - num % pad
  else
    if num % pad = 0 then num else num + pad - num % pad

/-- Line 15: the 48-character custom base64-style alphabet (starts with NUL). -/
def BASE64CHARSET : List Char :=
  "\x00 #$()-./?0123456789_abcdefghijklmnopqrstuvwxyz~".data

/-! ### Packed-variant bitstream extractor (lines 60-71)

State of the `while` loop: the not-yet-consumed input bytes, `remainingBits`
and `lastValue`.  `stringTable.read(1)` past the end yields `b""`, i.e. the
value 0 without shrinking the input; `List.headD _ 0` / `List.tail` model
that. -/

/-- One iteration of the loop body (lines 66-69): returns the appended group
together with the new input/`remainingBits`/`lastValue` state. -/
def extractStep (input : List Nat) (remainingBits lastValue : Nat) :
    Nat × List Nat × Nat × Nat :=
  let value := if remainingBits ≠ 6 then input.headD 0 else 0
  let input' := if remainingBits ≠ 6 then input.tail else input
  let group := ((value &&& (2 ^ (6 - remainingBits) - 1)) <<< remainingBits) |||
      (lastValue >>> (8 - remainingBits))
  let remainingBits' := if remainingBits = 6 then 0 else 8 - (6 - remainingBits)
  (group, input', remainingBits', value)

/-- The full loop (lines 65-71): appends groups until one equals 0; the
terminating 0 is kept, as in `temp`.  `fuel` bounds the iteration count; the
Python loop needs at most `2 * input.length + 2` iterations because reads past
the end of the buffer yield 0 and drive the state to a zero group. -/
def extractSymbols : Nat → List Nat → Nat → Nat → List Nat
  | 0, _, _, _ => []
  | fuel + 1, input, remainingBits, lastValue =>
    let s := extractStep input remainingBits lastValue
    if s.1 = 0 then [s.1]
    else s.1 :: extractSymbols fuel s.2.1 s.2.2.1 s.2.2.2

/-! Spec-side extractor, written from the spec's words (§4.3, packed variant):
the state is the carry (the unconsumed bits themselves, low-aligned) and the
carry-bit-count.  When the carry holds exactly 6 bits they are emitted as the
group and no byte is consumed; otherwise the next byte is consumed, the group
is (byte low-order bits shifted up by the carry count) OR (the carry), and the
byte's remaining high bits become the new carry with bit-count
`8 - (6 - previous count)`. -/

/-- Spec-side single step over the `(carry, count)` state. -/
def specExtractStep (input : List Nat) (carry count : Nat) :
    Nat × List Nat × Nat × Nat :=
  if count = 6 then (carry, input, 0, 0)
  else
    let b := input.headD 0
    (((b % 2 ^ (6 - count)) <<< count) ||| carry, input.tail,
      b >>> (6 - count), 8 - (6 - count))

/-- Spec-side extraction loop: emits groups, stopping at (and including) the
first group equal to 0. -/
def specExtractSymbols : Nat → List Nat → Nat → Nat → List Nat
  | 0, _, _, _ => []
  | fuel + 1, input, carry, count =>
    let s := specExtractStep input carry count
    if s.1 = 0 then [s.1]
    else s.1 :: specExtractSymbols fuel s.2.1 s.2.2.1 s.2.2.2

/-- The abstraction between the two step functions: the spec's carry is the
`remainingBits` high-order bits of `lastValue`, shifted down. -/
theorem extractStep_sim (input : List Nat) (rb lv : Nat) :
    (extractStep input rb lv).1 = (specExtractStep input (lv >>> (8 - rb)) rb).1 ∧
    (extractStep input rb lv).2.1 = (specExtractStep input (lv >>> (8 - rb)) rb).2.1 ∧
    (extractStep input rb lv).2.2.2 >>> (8 - (extractStep input rb lv).2.2.1) =
      (specExtractStep input (lv >>> (8 - rb)) rb).2.2.1 ∧
    (extractStep input rb lv).2.2.1 = (specExtractStep input (lv >>> (8 - rb)) rb).2.2.2 := by
  by_cases h : rb = 6
  · subst h
    simp [extractStep, specExtractStep]
  · have h86 : 8 - (8 - (6 - rb)) = 6 - rb := by omega
    simp [extractStep, specExtractStep, h, Nat.and_pow_two_sub_one_eq_mod, h86]

/-- C2: the source bitstream loop (lines 65-71) produces exactly the group
sequence described by the spec: 6 carried bits are emitted without consuming a
byte when the carry count is 6, otherwise a byte is consumed and combined with
the carry as specified, with the new carry count `8 - (6 - previous)`, and the
loop stops at the first zero group (which is kept).  Stated for every fuel
bound, every input byte list (= bytes from the starting offset onward) and
every loop state, related to the spec state by carry = high `rb` bits of
`lastValue`. -/
theorem claim_C2 :
    ∀ (fuel : Nat) (input : List Nat) (rb lv : Nat),
      extractSymbols fuel input rb lv =
        specExtractSymbols fuel input (lv >>> (8 - rb)) rb := by
  intro fuel
  induction fuel with
  | zero => intro input rb lv; rfl
  | succ n ih =>
    intro input rb lv
    obtain ⟨h1, h2, h3, h4⟩ := extractStep_sim input rb lv
    show (if (extractStep input rb lv).1 = 0 then [(extractStep input rb lv).1]
        else (extractStep input rb lv).1 ::
          extractSymbols n (extractStep input rb lv).2.1
            (extractStep input rb lv).2.2.1 (extractStep input rb lv).2.2.2) = _
    rw [h1, ih, h2, h3, h4]
    rfl

/-! ### Packed-variant path reconstruction (lines 56-77) -/

/-- Python slice `s[:n]`, where `n` may be negative (then it counts from the
end) or exceed the length (then the whole list is taken). -/
def pySliceTo (s : List Char) (n : Int) : List Char :=
  if 0 ≤ n then s.take n.toNat else s.take ((s.length : Int) + n).toNat

/-- Embeds `"".join(BASE64CHARSET[char] for char in syms if char < 48)`. -/
def litDecode (syms : List Nat) : List Char :=
  (syms.filter (fun c => c < 48)).map (fun c => BASE64CHARSET.getD c '\x00')

/-- A fuel bound that always suffices for `extractSymbols`: the loop consumes
a byte on all but at most one of each two successive iterations, and once it
reads past the end of the buffer every read yields 0, which drives the emitted
group to 0 within two further iterations. -/
def extractFuel (table : List Nat) : Nat := 2 * table.length + 3

/-- Lines 60-76: decode one packed path at string-table offset `offset`,
given the previously decoded path `prevName` (`temp[0] < 56` selects the
literal branch, otherwise the `prevName[:(temp[0]-0x38)+((temp[1]-0x20)<<3)]`
prefix is reused; `temp[2:-1]` is `(temp.drop 2).dropLast`). -/
def decodeName (table : List Nat) (offset : Nat) (prevName : List Char) : List Char :=
  let temp := extractSymbols (extractFuel table) (table.drop offset) 0 0
  if temp.headD 0 < 56 then
    litDecode temp.dropLast
  else
    pySliceTo prevName
        (((temp.headD 0 : Nat) : Int) - 0x38 + (((temp.getD 1 0 : Nat) : Int) - 0x20) * 8) ++
      litDecode (temp.drop 2).dropLast

/-- Lines 58-77: decode all packed names in TOC order, threading `prevName`
(initially the empty string). -/
def decodeAllPacked (table : List Nat) : List Nat → List Char → List (List Char)
  | [], _ => []
  | off :: rest, prev =>
    let name := decodeName table off prev
    name :: decodeAllPacked table rest name

/-- Spec-side reconstruction of one packed path (§4.3): `symbols` is the
decoded sequence excluding the trailing terminator; if `symbols[0] < 56` the
path is the literal decode of `symbols`, otherwise it is the FIRST
`L = (symbols[0] - 0x38) + ((symbols[1] - 0x20) << 3)` characters of the
previously decoded path followed by the literal decode of `symbols[2:]`. -/
def specDecodeName (table : List Nat) (offset : Nat) (prevName : List Char) : List Char :=
  let symbols := (extractSymbols (extractFuel table) (table.drop offset) 0 0).dropLast
  if symbols.headD 0 < 56 then
    litDecode symbols
  else
    prevName.take
        ((((symbols.headD 0 : Nat) : Int) - 0x38 +
          (((symbols.getD 1 0 : Nat) : Int) - 0x20) * 8).toNat) ++
      litDecode (symbols.drop 2)

/-- Spec-side sequential decode, threading the previously decoded path. -/
def specDecodeAllPacked (table : List Nat) : List Nat → List Char → List (List Char)
  | [], _ => []
  | off :: rest, prev =>
    let name := specDecodeName table off prev
    name :: specDecodeAllPacked table rest name

/-- Well-formedness of one packed entry: when it is in prefix-sharing mode
its second decoded group is a real symbol of value at least `0x20` (hence the
shared-prefix length is nonnegative) and the terminator is not among the first
two groups. -/
def packedGuard (table : List Nat) (offset : Nat) : Prop :=
  56 ≤ (extractSymbols (extractFuel table) (table.drop offset) 0 0).headD 0 →
    (32 ≤ (extractSymbols (extractFuel table) (table.drop offset) 0 0).getD 1 0 ∧
      3 ≤ (extractSymbols (extractFuel table) (table.drop offset) 0 0).length)

instance (table : List Nat) (offset : Nat) : Decidable (packedGuard table offset) := by
  unfold packedGuard; exact inferInstance

theorem dropLast_drop_comm : ∀ (l : List Nat) (n : Nat), (l.drop n).dropLast = l.dropLast.drop n := by
  intro l
  induction l with
  | nil => intro n; simp
  | cons a t ih =>
    intro n
    cases n with
    | zero => rfl
    | succ m =>
      cases t with
      | nil => simp
      | cons b u =>
        simp only [List.drop_succ_cons, ih]
        rfl

theorem headD_dropLast (l : List Nat) (d : Nat) (h : 2 ≤ l.length) :
    l.dropLast.headD d = l.headD d := by
  match l, h with
  | a :: b :: t, _ => simp

theorem getD_one_dropLast (l : List Nat) (d : Nat) (h : 3 ≤ l.length) :
    l.dropLast.getD 1 d = l.getD 1 d := by
  match l, h with
  | a :: b :: c :: t, _ => simp [List.getD]

theorem headD_dropLast_lt (l : List Nat) (h : l.headD 0 < 56) :
    l.dropLast.headD 0 < 56 := by
  match l with
  | [] => simp
  | [a] => simp [List.dropLast]
  | a :: b :: t => simpa using h

/-- The per-entry reconstruction agrees with the spec description whenever the
entry is well formed (`packedGuard`). -/
theorem decodeName_eq_spec (table : List Nat) (offset : Nat) (prev : List Char)
    (h : packedGuard table offset) :
    decodeName table offset prev = specDecodeName table offset prev := by
  unfold packedGuard at h
  unfold decodeName specDecodeName
  by_cases hlt : (extractSymbols (extractFuel table) (table.drop offset) 0 0).headD 0 < 56
  · rw [if_pos hlt, if_pos (headD_dropLast_lt _ hlt)]
  · obtain ⟨h32, hlen⟩ := h (Nat.le_of_not_lt hlt)
    have h2 : 2 ≤ (extractSymbols (extractFuel table) (table.drop offset) 0 0).length := by omega
    rw [if_neg hlt, if_neg (by rw [headD_dropLast _ _ h2]; exact hlt)]
    rw [headD_dropLast _ _ h2, getD_one_dropLast _ _ hlen, dropLast_drop_comm]
    congr 1
    have h56 : (56 : Int) ≤ ((extractSymbols (extractFuel table) (table.drop offset) 0 0).headD 0 : Nat) := by
      exact_mod_cast Nat.le_of_not_lt hlt
    have h32i : (32 : Int) ≤ ((extractSymbols (extractFuel table) (table.drop offset) 0 0).getD 1 0 : Nat) := by
      exact_mod_cast h32
    unfold pySliceTo
    rw [if_pos (by omega)]

/-- Threaded version of `decodeName_eq_spec` over a list of name offsets. -/
theorem decodeAllPacked_eq_spec (table : List Nat) :
    ∀ (offsets : List Nat) (prev : List Char),
      (∀ off ∈ offsets, packedGuard table off) →
      decodeAllPacked table offsets prev = specDecodeAllPacked table offsets prev := by
  intro offsets
  induction offsets with
  | nil => intro prev _; rfl
  | cons o rest ih =>
    intro prev h
    have ho := h o (by simp)
    have hrest : ∀ off ∈ rest, packedGuard table off := fun off hm => h off (by simp [hm])
    show decodeName table o prev :: decodeAllPacked table rest (decodeName table o prev) = _
    rw [decodeName_eq_spec table o prev ho, ih _ hrest]
    rfl

/-- C3 (amended): for archives in the packed variant, decoding the TOC
entries' names in order, threading the previously decoded path, yields exactly
the spec's reconstruction — literal alphabet decode when `symbols[0] < 56`
(values 48..55 skipped), and `previous.take L ++ literal(symbols[2:])` with
`L = (symbols[0] - 0x38) + ((symbols[1] - 0x20) << 3)` when `symbols[0] ≥ 56`
— provided each prefix-sharing entry is well formed (`symbols[1] ≥ 0x20`, so
`L ≥ 0`; when `L < 0` the code instead uses Python's negative-slice semantics,
see the counterexample). -/
theorem claim_C3 (table : List Nat) (offsets : List Nat)
    (h : ∀ off ∈ offsets, packedGuard table off) :
    decodeAllPacked table offsets [] = specDecodeAllPacked table offsets [] :=
  decodeAllPacked_eq_spec table offsets [] h

/-- Witness for C3: a concrete packed string table with one literal entry
("ab") and one prefix-sharing entry ("abc" = 2 shared chars + literal "c"). -/
theorem claim_C3_witness :
    (∀ off ∈ [0, 3], packedGuard [149, 5, 0, 58, 120, 1] off) ∧
      decodeAllPacked [149, 5, 0, 58, 120, 1] [0, 3] [] =
        specDecodeAllPacked [149, 5, 0, 58, 120, 1] [0, 3] [] ∧
      decodeAllPacked [149, 5, 0, 58, 120, 1] [0, 3] [] = [['a', 'b'], ['a', 'b', 'c']] :=
  ⟨by decide, claim_C3 [149, 5, 0, 58, 120, 1] [0, 3] (by decide), by decide⟩

/-- Counterexample for C3 as frozen: in prefix-sharing mode with
`symbols = [62, 31]` the length `L = (62 - 0x38) + ((31 - 0x20) << 3) = -2`
is negative, and the code keeps all but the last 2 characters of the previous
path ("abcd" from "abcdef") instead of its first `L` characters (the empty
string). -/
theorem claim_C3_counterexample :
    decodeAllPacked [149, 117, 97, 153, 6, 0, 254, 7] [0, 6] [] =
        [['a', 'b', 'c', 'd', 'e', 'f'], ['a', 'b', 'c', 'd']] ∧
      specDecodeAllPacked [149, 117, 97, 153, 6, 0, 254, 7] [0, 6] [] =
        [['a', 'b', 'c', 'd', 'e', 'f'], []] ∧
      decodeAllPacked [149, 117, 97, 153, 6, 0, 254, 7] [0, 6] [] ≠
        specDecodeAllPacked [149, 117, 97, 153, 6, 0, 254, 7] [0, 6] [] :=
  ⟨by decide, by decide, by decide⟩

/-! ### Raw-variant string table (lines 79-88, 131, 152) -/

/-- Lines 84-88: the raw decode loop from the current buffer position.
Reaching the end of the buffer without having met a zero byte makes the Python
loop spin forever (`read(1)` returns `b""`, which is not `b"\\x00"`, and
appends the empty string); `none` models that divergence. -/
def rawDecodeGo : List Nat → Option (List Char)
  | [] => none
  | b :: rest => if b = 0 then some [] else (rawDecodeGo rest).map (Char.ofNat b :: ·)

/-- Lines 81-88: decode the null-terminated path at `nameOffset = offset`. -/
def rawDecode (table : List Nat) (offset : Nat) : Option (List Char) :=
  rawDecodeGo (table.drop offset)

/-- Line 131: `b"\\x00".join(name.encode("ANSI") for name in stringTable)` —
one zero-byte separator between paths, no leading or trailing separator. -/
def stEncode : List (List Char) → List Nat
  | [] => []
  | [p] => p.map Char.toNat
  | p :: q :: ps => p.map Char.toNat ++ 0 :: stEncode (q :: ps)

/-- Line 152: the `nameOffset` running accumulation — the offset of path `i`
is the byte count of all prior paths plus one separator byte each. -/
def stOffsets : List (List Char) → List Nat
  | [] => []
  | p :: ps => 0 :: (stOffsets ps).map (· + (p.length + 1))

theorem rawDecodeGo_isSome (l : List Nat) : (rawDecodeGo l).isSome ↔ 0 ∈ l := by
  induction l with
  | nil => simp [rawDecodeGo]
  | cons b rest ih =>
    by_cases hb : b = 0
    · subst hb; simp [rawDecodeGo]
    · simp [rawDecodeGo, hb, ih, Ne.symm hb]

/-- C10: the raw-variant decode loop terminates exactly when a zero byte
exists at or after the offset in the in-memory string-table bytes; otherwise
the embedding reports divergence (`none`). -/
theorem claim_C10 (table : List Nat) (offset : Nat) :
    (rawDecode table offset).isSome ↔ ∃ j, offset ≤ j ∧ table[j]? = some 0 := by
  rw [rawDecode, rawDecodeGo_isSome, List.mem_iff_getElem?]
  constructor
  · rintro ⟨n, hn⟩
    exact ⟨offset + n, Nat.le_add_right _ _, by rwa [List.getElem?_drop] at hn⟩
  · rintro ⟨j, hle, hj⟩
    refine ⟨j - offset, ?_⟩
    rw [List.getElem?_drop]
    rwa [Nat.add_sub_cancel' hle]

/-- Decoding a zero-free path laid out before a zero byte yields the path. -/
theorem rawDecodeGo_append_zero (p : List Char) (rest : List Nat)
    (h : ∀ c ∈ p, c.toNat ≠ 0) :
    rawDecodeGo (p.map Char.toNat ++ 0 :: rest) = some p := by
  induction p with
  | nil => simp [rawDecodeGo]
  | cons c cs ih =>
    have hc : c.toNat ≠ 0 := h c (by simp)
    have ih2 := ih (fun x hx => h x (by simp [hx]))
    simp [rawDecodeGo, hc, ih2, Char.ofNat_toNat]

/-- Decoding the raw string table at the `i`-th accumulated offset recovers
the `i`-th path, provided a zero byte follows the encoded bytes. -/
theorem stDecode_encode (paths : List (List Char))
    (hz : ∀ p ∈ paths, ∀ c ∈ p, c.toNat ≠ 0) :
    ∀ (i : Nat) (p : List Char) (off : Nat),
      paths[i]? = some p → (stOffsets paths)[i]? = some off →
      rawDecode (stEncode paths ++ [0]) off = some p := by
  induction paths with
  | nil => intro i p off hp _; simp at hp
  | cons q qs ih =>
    intro i p off hp hoff
    cases i with
    | zero =>
      simp only [List.getElem?_cons_zero, Option.some.injEq] at hp
      simp only [stOffsets, List.getElem?_cons_zero, Option.some.injEq] at hoff
      subst hp
      subst hoff
      cases qs with
      | nil =>
        simp only [rawDecode, stEncode, List.drop_zero]
        exact rawDecodeGo_append_zero q [] (hz q (by simp))
      | cons r rs =>
        simp only [rawDecode, stEncode, List.drop_zero, List.append_assoc, List.cons_append]
        exact rawDecodeGo_append_zero q _ (hz q (by simp))
    | succ j =>
      cases qs with
      | nil => simp at hp
      | cons r rs =>
        simp only [List.getElem?_cons_succ] at hp
        rw [show stOffsets (q :: r :: rs) =
            0 :: (stOffsets (r :: rs)).map (· + (q.length + 1)) from rfl] at hoff
        simp only [List.getElem?_cons_succ, List.getElem?_map] at hoff
        cases hoff2 : (stOffsets (r :: rs))[j]? with
        | none => rw [hoff2] at hoff; simp at hoff
        | some off2 =>
          rw [hoff2] at hoff
          simp only [Option.map_some', Option.some.injEq] at hoff
          subst hoff
          have hlen : ((q.map Char.toNat) ++ [0]).length = q.length + 1 := by simp
          simp only [rawDecode, stEncode]
          have hb : ((q.map Char.toNat) ++ 0 :: stEncode (r :: rs)) ++ [0] =
              ((q.map Char.toNat) ++ [0]) ++ (stEncode (r :: rs) ++ [0]) := by simp
          rw [hb, Nat.add_comm off2 (q.length + 1), ← hlen, List.drop_append]
          exact ih (fun x hx => hz x (by simp [hx])) j p off2 hp hoff2

/-- C4 (amended): for any zero-free path list, decoding the raw string table
at `offset_i` (the running byte count of all prior paths including their
separators) yields exactly `path_i` for every `i`, provided at least one zero
byte follows the joined table (as the archive's 0x800 zero padding supplies
whenever it is nonempty).  On the bare joined bytes the decode of the last
path finds no terminator and does not terminate (see the counterexample). -/
theorem claim_C4 (paths : List (List Char))
    (hz : ∀ p ∈ paths, ∀ c ∈ p, c.toNat ≠ 0)
    (i : Nat) (p : List Char) (off : Nat)
    (hp : paths[i]? = some p) (hoff : (stOffsets paths)[i]? = some off) :
    rawDecode (stEncode paths ++ [0]) off = some p :=
  stDecode_encode paths hz i p off hp hoff

/-- Witness for C4 at the two-path table `["a", "b"]`, `i = 1`. -/
theorem claim_C4_witness :
    (∀ p ∈ [['a'], ['b']], ∀ c ∈ p, c.toNat ≠ 0) ∧
      rawDecode (stEncode [['a'], ['b']] ++ [0]) 2 = some ['b'] :=
  ⟨by decide, claim_C4 [['a'], ['b']] (by decide) 1 ['b'] 2 (by decide) (by decide)⟩

/-- Counterexample for C4 as frozen: on the bare encoded table (no trailing
separator, per line 131) the last path's decode never reaches a zero byte, so
it diverges (`none`) instead of returning the path. -/
theorem claim_C4_counterexample :
    (stOffsets [['a']])[0]? = some 0 ∧
      rawDecode (stEncode [['a']]) 0 = none ∧
      (none : Option (List Char)) ≠ some ['a'] :=
  ⟨by decide, rfl, by decide⟩

/-! ### The packer (lines 114-169)

The directory walk and the filesystem are the spec's abstract asset source: an
`AssetEntry` list supplies every relative path the walk would produce (already
separator-normalized, directories carrying their trailing slash) together with
the bytes behind each file path. -/

structure AssetEntry where
  path : List Char
  data : List Nat
deriving Repr, DecidableEq

/-- Embeds `path.endswith("/")` (line 139; also `TOCEntry.isDir`, lines 38-39). -/
def isDirPath (p : List Char) : Bool := p.getLast? = some '/'

/-- Python string comparison (code-point lexicographic) for line 124's sort. -/
def pathLe : List Char → List Char → Bool
  | [], _ => true
  | _ :: _, [] => false
  | a :: as, b :: bs =>
    if a.toNat < b.toNat then true
    else if b.toNat < a.toNat then false
    else pathLe as bs

/-- Sorted insertion, building up line 124's `stringTable.sort()`. -/
def insertPath (p : List Char) : List (List Char) → List (List Char)
  | [] => [p]
  | q :: qs => if pathLe p q then p :: q :: qs else q :: insertPath p qs

/-- Line 124: the sorted path list. -/
def sortPaths (ps : List (List Char)) : List (List Char) := ps.foldr insertPath []

/-- The bytes behind `path` in the abstract asset source (the
`open(os.path.join(assetPath, path), "rb").read()` of lines 140-141; call
sites only use paths present in the source). -/
def findData (assets : List AssetEntry) (p : List Char) : List Nat :=
  match assets.find? (fun a => a.path == p) with
  | some a => a.data
  | none => []

/-- One 16-byte TOC record (lines 22-27 on read, line 149 on write). -/
structure TOCRec where
  nameOffset : Nat
  fileOffset : Nat
  uncompressedSize : Nat
  compressedSize : Nat
deriving Repr, DecidableEq

/-- Lines 136-153: the per-path loop, threading `nameOffset` and
`estimatedFileOffset`; yields the TOC records and the per-entry payload
chunks (payload bytes plus the entry's 0x800 alignment padding) in order. -/
def packLoop (compress : Bool) (comp : List Nat → List Nat)
    (assets : List AssetEntry) :
    List (List Char) → Nat → Nat → List TOCRec × List (List Nat)
  | [], _, _ => ([], [])
  | p :: ps, nameOff, fileOff =>
    let rawData := if isDirPath p then [] else findData assets p
    let data := if isDirPath p then [] else if compress then comp rawData else rawData
    let uSize := if isDirPath p then 0 else rawData.length
    let cSize := if isDirPath p then 0 else data.length
    let rest := packLoop compress comp assets ps (nameOff + (p.length + 1))
        (fileOff + Padding data.length 0x800 false)
    (⟨nameOff, fileOff, uSize, cSize⟩ :: rest.1,
      (data ++ List.replicate (Padding data.length 0x800 true) 0) :: rest.2)

/-- Lines 117-124: the sorted string table of relative paths. -/
def packPaths (assets : List AssetEntry) : List (List Char) :=
  sortPaths (assets.map (fun a => a.path))

/-- Line 126: `estimatedTOCSize = Padding(len(stringTable)*16)`. -/
def packEstTOC (assets : List AssetEntry) : Nat :=
  Padding ((packPaths assets).length * 16) 0x800 false

/-- Line 127: `estimatedStringTableSize = Padding(sum(len(path)+1 ...))`. -/
def packEstST (assets : List AssetEntry) : Nat :=
  Padding ((packPaths assets).foldr (fun p acc => (p.length + 1) + acc) 0) 0x800 false

/-- The TOC records written by lines 136-153 (initial `nameOffset = 0`,
initial `estimatedFileOffset = 0x800 + estimatedTOCSize +
estimatedStringTableSize`, line 134-135). -/
def packTOC (compress : Bool) (comp : List Nat → List Nat)
    (assets : List AssetEntry) : List TOCRec :=
  (packLoop compress comp assets (packPaths assets) 0
    (0x800 + packEstTOC assets + packEstST assets)).1

/-- The per-entry payload chunks written by line 150, in order. -/
def packChunks (compress : Bool) (comp : List Nat → List Nat)
    (assets : List AssetEntry) : List (List Nat) :=
  (packLoop compress comp assets (packPaths assets) 0
    (0x800 + packEstTOC assets + packEstST assets)).2

/-- Line 149: `struct.pack("<IIII", nameOffset, estimatedFileOffset,
uncompressedSize, compressedSize)`. -/
def recToBytes (r : TOCRec) : List Nat :=
  toU32LE r.nameOffset ++ toU32LE r.fileOffset ++
    toU32LE r.uncompressedSize ++ toU32LE r.compressedSize

/-- Lines 114-169: the full packer output (header block, padded TOC, padded
raw string table, payload chunks).  `[68, 65, 86, 69]` is the ANSI encoding
of the magic `"DAVE"` (line 129). -/
def pack (compress : Bool) (comp : List Nat → List Nat)
    (assets : List AssetEntry) : List Nat :=
  let tocBytes := ((packTOC compress comp assets).map recToBytes).flatten
  let stBytes := stEncode (packPaths assets)
  ([68, 65, 86, 69] ++ toU32LE (packPaths assets).length ++
      toU32LE (packEstTOC assets) ++ toU32LE (packEstST assets) ++
      List.replicate 0x7F0 0) ++
    (tocBytes ++ List.replicate (Padding tocBytes.length 0x800 true) 0) ++
    (stBytes ++ List.replicate (Padding stBytes.length 0x800 true) 0) ++
    (packChunks compress comp assets).flatten

/-! ### The unpacker (lines 42-111) -/

/-- Lines 23-27: one TOC record read at absolute position `pos`. -/
def readTOCEntry (archive : List Nat) (pos : Nat) : TOCRec :=
  ⟨fromLE ((archive.drop pos).take 4),
    fromLE ((archive.drop (pos + 4)).take 4),
    fromLE ((archive.drop (pos + 8)).take 4),
    fromLE ((archive.drop (pos + 12)).take 4)⟩

/-- Line 50: the `numFiles` records following the seek to 0x800. -/
def readTOC (archive : List Nat) (numFiles : Nat) : List TOCRec :=
  (List.range numFiles).map (fun i => readTOCEntry archive (0x800 + 16 * i))

/-- Lines 90-111: the extraction loop over (entry, decoded path) pairs.  The
`os.path.exists(outputDirectory)` check (lines 91-92) runs at the top of every
iteration and raises before anything else; directory entries are skipped; a
file entry's payload is the `compressedSize` bytes at `fileOffset`,
raw-inflated via `decomp` exactly when `uncompressedSize != compressedSize`
(lines 31-32, 105-108).  The result lists the written files as
(relative path, bytes) pairs. -/
def extractLoop (decomp : List Nat → List Nat) (archive : List Nat)
    (rootExists : Bool) :
    List (TOCRec × List Char) → Except String (List (List Char × List Nat))
  | [] => .ok []
  | (e, name) :: rest =>
    if rootExists = false then .error "Output directory does not exist"
    else if isDirPath name then extractLoop decomp archive rootExists rest
    else
      let raw := (archive.drop e.fileOffset).take e.compressedSize
      let data := if e.uncompressedSize ≠ e.compressedSize then decomp raw else raw
      (extractLoop decomp archive rootExists rest).map (fun l => (name, data) :: l)

/-- Lines 42-111: the unpacker.  `none` models the case where the Python does
not terminate (raw-variant decode with no reachable zero byte); otherwise the
result is the extraction outcome.  Note lines 56/79: a magic other than
`"Dave"`/`"DAVE"` selects NEITHER decode branch, every `filepath` stays `""`,
and extraction proceeds regardless. -/
def unpack (decomp : List Nat → List Nat) (archive : List Nat)
    (rootExists : Bool) :
    Option (Except String (List (List Char × List Nat))) :=
  let magic := (archive.take 4).map Char.ofNat
  let numFiles := fromLE ((archive.drop 4).take 4)
  let tocLength := fromLE ((archive.drop 8).take 4)
  let stringTableLength := fromLE ((archive.drop 12).take 4)
  let fileEntries := readTOC archive numFiles
  let stringTable := (archive.drop (0x800 + tocLength)).take stringTableLength
  let namesOpt : Option (List (List Char)) :=
    if magic = ['D', 'a', 'v', 'e'] then
      some (decodeAllPacked stringTable (fileEntries.map (fun e => e.nameOffset)) [])
    else if magic = ['D', 'A', 'V', 'E'] then
      fileEntries.mapM (fun e => rawDecode stringTable e.nameOffset)
    else
      some (fileEntries.map (fun _ => []))
  namesOpt.map (fun names => extractLoop decomp archive rootExists (fileEntries.zip names))

/-- The identity codec: a lossless stand-in `comp`/`decomp` pair used at
concrete evaluation points (`decomp (comp d) = d` holds definitionally). -/
def idCodec (d : List Nat) : List Nat := d

/-! ### The string-table size bug

Lines 127 and 131 disagree: the header declares
`estimatedStringTableSize = Padding(sum(len(path)+1 for path in stringTable))`
(which counts a trailing separator that line 131's `b"\\x00".join` never
emits), while line 166 pads the actually written join.  Whenever
`sum(len+1) % 0x800 == 1` the declared size exceeds the written region by
0x800, so every `fileOffset` recorded in the TOC (computed from the declared
sizes, line 134) points 0x800 past the payload actually written.  The minimal
failing shape is a single file whose relative path is 2048 characters long. -/

def c1Path : List Char := List.replicate 2048 'a'

def c1Assets : List AssetEntry := [⟨c1Path, [104, 105]⟩]

theorem c1_packPaths : packPaths c1Assets = [c1Path] := rfl

theorem c1_isDir : isDirPath c1Path = false := by
  unfold isDirPath c1Path
  rw [show (2048 : Nat) = 2047 + 1 from rfl, List.replicate_succ']
  simp [List.getLast?_append]

theorem c1_findData : findData c1Assets c1Path = [104, 105] := by
  simp [findData, c1Assets, List.find?]

theorem c1_estTOC : packEstTOC c1Assets = 2048 := by
  rw [packEstTOC, c1_packPaths]
  norm_num [Padding]

theorem c1_estST : packEstST c1Assets = 4096 := by
  rw [packEstST, c1_packPaths]
  simp only [List.foldr, c1Path, List.length_replicate]
  norm_num [Padding]

theorem c1_TOC : packTOC false idCodec c1Assets = [⟨0, 8192, 2, 2⟩] := by
  rw [packTOC, c1_packPaths, c1_estTOC, c1_estST]
  simp [packLoop, c1_isDir, c1_findData]

theorem c1_TOC_compressed : packTOC true idCodec c1Assets = [⟨0, 8192, 2, 2⟩] := by
  rw [packTOC, c1_packPaths, c1_estTOC, c1_estST]
  simp [packLoop, c1_isDir, c1_findData, idCodec]

theorem c1_chunks : packChunks false idCodec c1Assets = [[104, 105] ++ List.replicate 2046 0] := by
  have hp : Padding 2 2048 true = 2046 := by norm_num [Padding]
  rw [packChunks, c1_packPaths, c1_estTOC, c1_estST]
  simp [packLoop, c1_isDir, c1_findData, hp]

theorem c1_chunks_compressed :
    packChunks true idCodec c1Assets = [[104, 105] ++ List.replicate 2046 0] := by
  have hp : Padding 2 2048 true = 2046 := by norm_num [Padding]
  rw [packChunks, c1_packPaths, c1_estTOC, c1_estST]
  simp [packLoop, c1_isDir, c1_findData, idCodec, hp]

/-- Its written string-table region: exactly 2048 bytes of `'a'`, no padding. -/
def c1Table : List Nat := List.replicate 2048 97

/-- Its payload region: `"hi"` plus alignment padding. -/
def c1File : List Nat := [104, 105] ++ List.replicate 2046 0

/-- The bugged archive: 0x2000 bytes in total, while the header declares a
0x1000-byte string table (only 0x800 bytes of it were written) and the single
TOC record points at `fileOffset = 0x2000` = the end of the file.  The
segment boundaries mirror the header fields, the four TOC record fields, the
two padding regions, the string table and the payload. -/
def c1Arch : List Nat :=
  [68, 65, 86, 69] ++ ([1, 0, 0, 0] ++ ([0, 8, 0, 0] ++ ([0, 16, 0, 0] ++
    (List.replicate 2032 0 ++ ([0, 0, 0, 0] ++ ([0, 32, 0, 0] ++ ([2, 0, 0, 0] ++
      ([2, 0, 0, 0] ++ (List.replicate 2032 0 ++ (c1Table ++ c1File))))))))))

theorem c1_pack_shape : pack false idCodec c1Assets = c1Arch := by
  have h5 : Padding 16 2048 true = 2032 := by norm_num [Padding]
  have h6 : Padding 2048 2048 true = 0 := by norm_num [Padding]
  simp only [pack]
  rw [c1_TOC, c1_chunks, c1_packPaths, c1_estTOC, c1_estST]
  have h1 : ((List.map recToBytes [⟨0, 8192, 2, 2⟩]).flatten : List Nat) =
      [0, 0, 0, 0] ++ ([0, 32, 0, 0] ++ ([2, 0, 0, 0] ++ [2, 0, 0, 0])) := rfl
  have h2 : stEncode [c1Path] = c1Table := by
    show c1Path.map Char.toNat = c1Table
    rw [c1Path, List.map_replicate]
    rfl
  rw [h1, h2]
  have h3 : (([0, 0, 0, 0] : List Nat) ++ ([0, 32, 0, 0] ++ ([2, 0, 0, 0] ++
      [2, 0, 0, 0]))).length = 16 := rfl
  have h4 : c1Table.length = 2048 := by rw [c1Table]; exact List.length_replicate ..
  rw [h3, h4, h5, h6]
  rw [show List.replicate 0 (0 : Nat) = [] from rfl, List.append_nil]
  have h7 : ([[104, 105] ++ List.replicate 2046 0] : List (List Nat)).flatten =
      c1File := by
    simp only [List.flatten_cons, List.flatten_nil, List.append_nil, c1File]
  rw [h7]
  rw [show toU32LE [c1Path].length = [1, 0, 0, 0] from rfl,
    show toU32LE 2048 = [0, 8, 0, 0] from rfl,
    show toU32LE 4096 = [0, 16, 0, 0] from rfl]
  unfold c1Arch
  simp only [List.append_assoc]

theorem c1_pack_shape_compressed : pack true idCodec c1Assets = c1Arch := by
  have h5 : Padding 16 2048 true = 2032 := by norm_num [Padding]
  have h6 : Padding 2048 2048 true = 0 := by norm_num [Padding]
  simp only [pack]
  rw [c1_TOC_compressed, c1_chunks_compressed, c1_packPaths, c1_estTOC, c1_estST]
  have h1 : ((List.map recToBytes [⟨0, 8192, 2, 2⟩]).flatten : List Nat) =
      [0, 0, 0, 0] ++ ([0, 32, 0, 0] ++ ([2, 0, 0, 0] ++ [2, 0, 0, 0])) := rfl
  have h2 : stEncode [c1Path] = c1Table := by
    show c1Path.map Char.toNat = c1Table
    rw [c1Path, List.map_replicate]
    rfl
  rw [h1, h2]
  have h3 : (([0, 0, 0, 0] : List Nat) ++ ([0, 32, 0, 0] ++ ([2, 0, 0, 0] ++
      [2, 0, 0, 0]))).length = 16 := rfl
  have h4 : c1Table.length = 2048 := by rw [c1Table]; exact List.length_replicate ..
  rw [h3, h4, h5, h6]
  rw [show List.replicate 0 (0 : Nat) = [] from rfl, List.append_nil]
  have h7 : ([[104, 105] ++ List.replicate 2046 0] : List (List Nat)).flatten =
      c1File := by
    simp only [List.flatten_cons, List.flatten_nil, List.append_nil, c1File]
  rw [h7]
  rw [show toU32LE [c1Path].length = [1, 0, 0, 0] from rfl,
    show toU32LE 2048 = [0, 8, 0, 0] from rfl,
    show toU32LE 4096 = [0, 16, 0, 0] from rfl]
  unfold c1Arch
  simp only [List.append_assoc]

theorem c1Arch_drop4 : c1Arch.drop 4 =
    [1, 0, 0, 0] ++ ([0, 8, 0, 0] ++ ([0, 16, 0, 0] ++
      (List.replicate 2032 0 ++ ([0, 0, 0, 0] ++ ([0, 32, 0, 0] ++ ([2, 0, 0, 0] ++
        ([2, 0, 0, 0] ++ (List.replicate 2032 0 ++ (c1Table ++ c1File))))))))) := by
  unfold c1Arch
  exact List.drop_left' rfl

theorem c1Arch_drop8 : c1Arch.drop 8 =
    [0, 8, 0, 0] ++ ([0, 16, 0, 0] ++
      (List.replicate 2032 0 ++ ([0, 0, 0, 0] ++ ([0, 32, 0, 0] ++ ([2, 0, 0, 0] ++
        ([2, 0, 0, 0] ++ (List.replicate 2032 0 ++ (c1Table ++ c1File)))))))) := by
  rw [show (8 : Nat) = 4 + 4 from rfl, ← List.drop_drop, c1Arch_drop4]
  exact List.drop_left' rfl

theorem c1Arch_drop12 : c1Arch.drop 12 =
    [0, 16, 0, 0] ++
      (List.replicate 2032 0 ++ ([0, 0, 0, 0] ++ ([0, 32, 0, 0] ++ ([2, 0, 0, 0] ++
        ([2, 0, 0, 0] ++ (List.replicate 2032 0 ++ (c1Table ++ c1File))))))) := by
  rw [show (12 : Nat) = 8 + 4 from rfl, ← List.drop_drop, c1Arch_drop8]
  exact List.drop_left' rfl

theorem c1Arch_drop16 : c1Arch.drop 16 =
    List.replicate 2032 0 ++ ([0, 0, 0, 0] ++ ([0, 32, 0, 0] ++ ([2, 0, 0, 0] ++
      ([2, 0, 0, 0] ++ (List.replicate 2032 0 ++ (c1Table ++ c1File)))))) := by
  rw [show (16 : Nat) = 12 + 4 from rfl, ← List.drop_drop, c1Arch_drop12]
  exact List.drop_left' rfl

theorem c1Arch_drop2048 : c1Arch.drop 2048 =
    [0, 0, 0, 0] ++ ([0, 32, 0, 0] ++ ([2, 0, 0, 0] ++
      ([2, 0, 0, 0] ++ (List.replicate 2032 0 ++ (c1Table ++ c1File))))) := by
  rw [show (2048 : Nat) = 16 + 2032 from rfl, ← List.drop_drop, c1Arch_drop16]
  exact List.drop_left' (List.length_replicate ..)

theorem c1Arch_drop2052 : c1Arch.drop 2052 =
    [0, 32, 0, 0] ++ ([2, 0, 0, 0] ++
      ([2, 0, 0, 0] ++ (List.replicate 2032 0 ++ (c1Table ++ c1File)))) := by
  rw [show (2052 : Nat) = 2048 + 4 from rfl, ← List.drop_drop, c1Arch_drop2048]
  exact List.drop_left' rfl

theorem c1Arch_drop2056 : c1Arch.drop 2056 =
    [2, 0, 0, 0] ++ ([2, 0, 0, 0] ++ (List.replicate 2032 0 ++ (c1Table ++ c1File))) := by
  rw [show (2056 : Nat) = 2052 + 4 from rfl, ← List.drop_drop, c1Arch_drop2052]
  exact List.drop_left' rfl

theorem c1Arch_drop2060 : c1Arch.drop 2060 =
    [2, 0, 0, 0] ++ (List.replicate 2032 0 ++ (c1Table ++ c1File)) := by
  rw [show (2060 : Nat) = 2056 + 4 from rfl, ← List.drop_drop, c1Arch_drop2056]
  exact List.drop_left' rfl

theorem c1Arch_drop4096 : c1Arch.drop 4096 = c1Table ++ c1File := by
  rw [show (4096 : Nat) = 2064 + 2032 from rfl, ← List.drop_drop]
  rw [show (2064 : Nat) = 2060 + 4 from rfl, ← List.drop_drop, c1Arch_drop2060]
  rw [List.drop_left' (show ([2, 0, 0, 0] : List Nat).length = 4 from rfl)]
  exact List.drop_left' (List.length_replicate ..)

theorem c1Arch_len : c1Arch.length = 8192 := by
  unfold c1Arch c1Table c1File
  simp only [List.length_append, List.length_replicate, List.length_cons, List.length_nil]

theorem c1Arch_toc : readTOCEntry c1Arch 2048 = ⟨0, 8192, 2, 2⟩ := by
  unfold readTOCEntry
  rw [show (2048 + 4 : Nat) = 2052 from rfl, show (2048 + 8 : Nat) = 2056 from rfl,
    show (2048 + 12 : Nat) = 2060 from rfl,
    c1Arch_drop2048, c1Arch_drop2052, c1Arch_drop2056, c1Arch_drop2060]
  rfl

theorem c1Arch_readTOC : readTOC c1Arch 1 = [⟨0, 8192, 2, 2⟩] := by
  unfold readTOC
  rw [show List.range 1 = [0] from rfl, List.map_cons, List.map_nil]
  rw [show (0x800 + 16 * 0 : Nat) = 2048 from rfl, c1Arch_toc]

theorem c1_name_nonzero : ∀ c ∈ c1Path ++ ['h', 'i'], c.toNat ≠ 0 := by
  intro c hc
  rw [c1Path, List.mem_append] at hc
  rcases hc with h | h
  · rw [List.eq_of_mem_replicate h]; decide
  · fin_cases h <;> decide

theorem c1Arch_name : rawDecode (c1Table ++ c1File) 0 = some (c1Path ++ ['h', 'i']) := by
  have hshape : c1Table ++ c1File =
      ((c1Path ++ ['h', 'i']).map Char.toNat) ++ (0 :: List.replicate 2045 0) := by
    rw [List.map_append, c1Path, List.map_replicate]
    rw [show List.replicate 2048 (Char.toNat 'a') = c1Table from rfl]
    rw [show (['h', 'i'].map Char.toNat) = [104, 105] from rfl]
    rw [c1File]
    rw [show List.replicate 2046 (0 : Nat) = 0 :: List.replicate 2045 0 from
      List.replicate_succ ..]
    simp [List.append_assoc]
  rw [rawDecode, List.drop_zero, hshape]
  exact rawDecodeGo_append_zero _ _ c1_name_nonzero

theorem c1_name_isDir : isDirPath (c1Path ++ ['h', 'i']) = false := by
  unfold isDirPath
  simp [List.getLast?_append]

theorem c1Arch_unpack :
    unpack idCodec c1Arch true = some (Except.ok [(c1Path ++ ['h', 'i'], [])]) := by
  have hmagic : (c1Arch.take 4).map Char.ofNat = ['D', 'A', 'V', 'E'] := by
    unfold c1Arch
    rw [List.take_left' (show ([68, 65, 86, 69] : List Nat).length = 4 from rfl)]
    rfl
  have hnum : fromLE ((c1Arch.drop 4).take 4) = 1 := by rw [c1Arch_drop4]; rfl
  have htoclen : fromLE ((c1Arch.drop 8).take 4) = 2048 := by rw [c1Arch_drop8]; rfl
  have hstlen : fromLE ((c1Arch.drop 12).take 4) = 4096 := by rw [c1Arch_drop12]; rfl
  have hTlen : c1Table.length = 2048 := by rw [c1Table]; exact List.length_replicate ..
  have hFlen : c1File.length = 2048 := by rw [c1File]; simp
  have htable : (c1Arch.drop (0x800 + 2048)).take 4096 = c1Table ++ c1File := by
    rw [show (0x800 + 2048 : Nat) = 4096 from rfl, c1Arch_drop4096]
    exact List.take_of_length_le (by rw [List.length_append, hTlen, hFlen])
  have hdrop8192 : c1Arch.drop 8192 = [] :=
    List.drop_eq_nil_of_le (by rw [c1Arch_len])
  simp only [unpack, hmagic, hnum, htoclen, hstlen, htable, c1Arch_readTOC]
  rw [if_pos trivial]
  rw [List.mapM_cons, List.mapM_nil]
  rw [show (⟨0, 8192, 2, 2⟩ : TOCRec).nameOffset = 0 from rfl, c1Arch_name]
  simp only [Option.bind_eq_bind, Option.some_bind, Option.pure_def]
  rw [if_neg (show ¬((['D', 'A', 'V', 'E'] : List Char) = ['D', 'a', 'v', 'e']) from by decide)]
  simp only [Option.map_some']
  rw [List.zip_cons_cons, List.zip_nil_left]
  simp only [extractLoop, c1_name_isDir, hdrop8192]
  rfl

/-- C1 (code bug): packing the tree `{"a"*2048: "hi"}` with `compress=false`
and unpacking the result yields ONE file whose relative path is the original
2048-character path with `"hi"` appended and whose contents are empty — the
header's `stringTableByteLength` (line 127, computed from `sum(len+1)`)
exceeds the written string-table region (line 131's join has no trailing
separator; line 166 pads the actual join) by 0x800 whenever
`sum(len(path)+1) % 0x800 == 1`, so the recorded `fileOffset` (line 134)
points past the payload, here exactly at end-of-file.  Neither the path set
nor the file contents round-trip. -/
theorem claim_C1 :
    unpack idCodec (pack false idCodec c1Assets) true =
      some (Except.ok [(c1Path ++ ['h', 'i'], [])]) ∧
      c1Path ++ ['h', 'i'] ≠ c1Path ∧ ([] : List Nat) ≠ [104, 105] := by
  refine ⟨?_, ?_, by decide⟩
  · rw [c1_pack_shape]
    exact c1Arch_unpack
  · intro h
    have h2 := congrArg List.length h
    rw [List.length_append, c1Path, List.length_replicate] at h2
    simp at h2

/-- C5 (code bug): the same input fails the compressed round trip as well,
under the identity codec — a valid lossless raw-deflate stand-in
(`idCodec (idCodec d) = d` for every payload, including ones whose
"compressed" form is not smaller).  The string-table size bug of C1 is
independent of the `compress` flag: the extracted file contents are empty
instead of `"hi"`. -/
theorem claim_C5 :
    (∀ d : List Nat, idCodec (idCodec d) = d) ∧
      unpack idCodec (pack true idCodec c1Assets) true =
        some (Except.ok [(c1Path ++ ['h', 'i'], [])]) ∧
      ([] : List Nat) ≠ [104, 105] := by
  refine ⟨fun d => rfl, ?_, by decide⟩
  rw [c1_pack_shape_compressed]
  exact c1Arch_unpack

/-! ### Magic-tag handling (C6) -/

/-- The extraction loop run over entries whose decoded paths are all empty
(exactly the state unpack reaches when the magic selects neither decode
branch): it succeeds and every reported path is empty. -/
theorem extract_names_empty (decomp : List Nat → List Nat) (archive : List Nat) :
    ∀ (pairs : List (TOCRec × List Char)), (∀ pr ∈ pairs, pr.2 = ([] : List Char)) →
      ∃ l, extractLoop decomp archive true pairs = Except.ok l ∧
        ∀ x ∈ l, x.1 = ([] : List Char) := by
  intro pairs
  induction pairs with
  | nil => exact fun _ => ⟨[], rfl, by simp⟩
  | cons pr rest ih =>
    intro h
    obtain ⟨e, name⟩ := pr
    have hname : name = [] := h (e, name) (by simp)
    subst hname
    obtain ⟨l, hl, hall⟩ := ih (fun x hx => h x (by simp [hx]))
    refine ⟨([], if e.uncompressedSize ≠ e.compressedSize then
        decomp ((archive.drop e.fileOffset).take e.compressedSize)
      else (archive.drop e.fileOffset).take e.compressedSize) :: l, ?_, ?_⟩
    · simp only [extractLoop, hl, show isDirPath [] = false from rfl]
      rfl
    · intro x hx
      rcases List.mem_cons.mp hx with h1 | h1
      · rw [h1]
      · exact hall x h1

/-- C6 (amended): `unpack` performs NO magic validation.  With a magic tag
other than `"Dave"` and `"DAVE"` it still reads the header, parses the whole
TOC and proceeds to extraction: it completes without any error (given an
existing destination), with every entry's path left empty because neither
string-table decode branch runs (lines 56 and 79 simply both fail their
tests; no `raise` exists for this case). -/
theorem claim_C6 (decomp : List Nat → List Nat) (archive : List Nat)
    (h1 : (archive.take 4).map Char.ofNat ≠ ['D', 'a', 'v', 'e'])
    (h2 : (archive.take 4).map Char.ofNat ≠ ['D', 'A', 'V', 'E']) :
    ∃ l, unpack decomp archive true = some (Except.ok l) ∧
      ∀ x ∈ l, x.1 = ([] : List Char) := by
  obtain ⟨l, hl, hall⟩ := extract_names_empty decomp archive
    ((readTOC archive (fromLE ((archive.drop 4).take 4))).zip
      ((readTOC archive (fromLE ((archive.drop 4).take 4))).map (fun _ => [])))
    (by
      intro pr hpr
      obtain ⟨hmem1, hmem2⟩ := List.of_mem_zip hpr
      obtain ⟨_, _, heq⟩ := List.mem_map.mp hmem2
      exact heq.symm)
  refine ⟨l, ?_, hall⟩
  simp only [unpack]
  rw [if_neg h1, if_neg h2]
  simp only [Option.map_some']
  rw [hl]

/-- Witness for C6: a tiny 8-byte input with magic `"XXXX"`; unpack parses
its (zero-filled, past-the-end) TOC entry and reports one extracted file with
an empty path and empty contents — no failure at all. -/
theorem claim_C6_witness :
    ((([88, 88, 88, 88, 1, 0, 0, 0] : List Nat).take 4).map Char.ofNat ≠
        ['D', 'a', 'v', 'e'] ∧
      (([88, 88, 88, 88, 1, 0, 0, 0] : List Nat).take 4).map Char.ofNat ≠
        ['D', 'A', 'V', 'E']) ∧
      ∃ l, unpack idCodec [88, 88, 88, 88, 1, 0, 0, 0] true = some (Except.ok l) ∧
        ∀ x ∈ l, x.1 = ([] : List Char) :=
  ⟨⟨by decide, by decide⟩,
    claim_C6 idCodec [88, 88, 88, 88, 1, 0, 0, 0] (by decide) (by decide)⟩

/-- Counterexample for C6 as frozen: on magic `"XXXX"` unpack raises no
`FormatError` at all — the TOC is parsed and extraction runs to completion,
writing one empty-path, empty-content file. -/
theorem claim_C6_counterexample :
    (([88, 88, 88, 88, 1, 0, 0, 0] : List Nat).take 4).map Char.ofNat =
        ['X', 'X', 'X', 'X'] ∧
      unpack idCodec [88, 88, 88, 88, 1, 0, 0, 0] true =
        some (Except.ok [([], [])]) :=
  ⟨rfl, rfl⟩

/-! ### Directory TOC entries (C7) -/

def c7Assets : List AssetEntry := [⟨['d', '/'], []⟩]

/-- Counterexample for C7 as frozen: packing a lone directory `"d/"` records
`fileOffset = 0x1800` (the running payload offset `0x800 + tocByteLength +
stringTableByteLength`, line 149 writes `estimatedFileOffset` for every
entry), not zero. -/
theorem claim_C7_counterexample :
    isDirPath ['d', '/'] = true ∧
      packTOC false idCodec c7Assets = [⟨0, 0x1800, 0, 0⟩] ∧
      (0x1800 : Nat) ≠ 0 :=
  ⟨rfl, rfl, by decide⟩

/-- The per-entry shape of the packer loop: every entry's `nameOffset` is the
running byte count of all prior paths plus one separator each (on top of the
starting offset), and a directory entry stores zero sizes and contributes an
empty payload chunk. -/
theorem packLoop_spec (compress : Bool) (comp : List Nat → List Nat)
    (assets : List AssetEntry) :
    ∀ (paths : List (List Char)) (nameOff fileOff : Nat) (i : Nat) (p : List Char),
      paths[i]? = some p →
      ∃ r c, (packLoop compress comp assets paths nameOff fileOff).1[i]? = some r ∧
        (packLoop compress comp assets paths nameOff fileOff).2[i]? = some c ∧
        r.nameOffset = nameOff + (((paths.take i).map (fun q => q.length + 1)).sum) ∧
        (isDirPath p = true →
          r.uncompressedSize = 0 ∧ r.compressedSize = 0 ∧ c = []) := by
  intro paths
  induction paths with
  | nil => intro _ _ i p hp; simp at hp
  | cons q qs ih =>
    intro nameOff fileOff i p hp
    simp only [packLoop]
    cases i with
    | zero =>
      simp only [List.getElem?_cons_zero, Option.some.injEq] at hp
      subst hp
      simp only [List.getElem?_cons_zero, Option.some.injEq]
      refine ⟨_, _, rfl, rfl, by simp, ?_⟩
      intro hdir
      refine ⟨by simp [hdir], by simp [hdir], ?_⟩
      simp [hdir, Padding]
    | succ j =>
      simp only [List.getElem?_cons_succ] at hp
      simp only [List.getElem?_cons_succ]
      obtain ⟨r, c, hr, hc, hoff, hdir⟩ := ih (nameOff + (q.length + 1)) _ j p hp
      refine ⟨r, c, hr, hc, ?_, hdir⟩
      rw [hoff, List.take_succ_cons, List.map_cons, List.sum_cons]
      omega

/-- C7 (amended): in every packed archive, every entry's `nameOffset` is the
running accumulation `Σ (len(path)+1)` over all prior entries — directories
included and treated exactly like files — and a directory entry has zero
`uncompressedSize` and `compressedSize` and contributes no bytes to the
payload region; its `fileOffset` however is the running payload offset, NOT
zero (see the counterexample). -/
theorem claim_C7 (compress : Bool) (comp : List Nat → List Nat)
    (assets : List AssetEntry) (i : Nat) (p : List Char)
    (hp : (packPaths assets)[i]? = some p) :
    ∃ r c, (packTOC compress comp assets)[i]? = some r ∧
      (packChunks compress comp assets)[i]? = some c ∧
      r.nameOffset = (((packPaths assets).take i).map (fun q => q.length + 1)).sum ∧
      (isDirPath p = true →
        r.uncompressedSize = 0 ∧ r.compressedSize = 0 ∧ c = []) := by
  obtain ⟨r, c, hr, hc, hoff, hdir⟩ := packLoop_spec compress comp assets
    (packPaths assets) 0 (0x800 + packEstTOC assets + packEstST assets) i p hp
  exact ⟨r, c, hr, hc, by rwa [Nat.zero_add] at hoff, hdir⟩

/-- Witness for C7 at the lone-directory tree: the entry is a directory, its
sizes are zero and its payload chunk is empty. -/
theorem claim_C7_witness :
    (packPaths c7Assets)[0]? = some ['d', '/'] ∧
      ∃ r c, (packTOC false idCodec c7Assets)[0]? = some r ∧
        (packChunks false idCodec c7Assets)[0]? = some c ∧
        r.nameOffset = (((packPaths c7Assets).take 0).map (fun q => q.length + 1)).sum ∧
        (isDirPath ['d', '/'] = true →
          r.uncompressedSize = 0 ∧ r.compressedSize = 0 ∧ c = []) :=
  ⟨rfl, claim_C7 false idCodec c7Assets 0 ['d', '/'] rfl⟩

/-! ### Padding invariants (C8) -/

theorem Padding_mod (n : Nat) : Padding n 2048 false % 2048 = 0 := by
  unfold Padding
  rw [if_neg (show ¬(false = true) from by decide)]
  by_cases h : n % 2048 = 0
  · rw [if_pos h]
    omega
  · rw [if_neg h]
    omega

theorem Padding_rest_add (n : Nat) : n + Padding n 2048 true = Padding n 2048 false := by
  unfold Padding
  rw [if_pos (show (true = true) from rfl), if_neg (show ¬(false = true) from by decide)]
  by_cases h : n % 2048 = 0
  · rw [if_pos h, if_pos h]
    omega
  · rw [if_neg h, if_neg h]
    omega

/-- Every payload chunk the pack loop emits has 0x800-aligned length. -/
theorem packLoop_chunk_len (compress : Bool) (comp : List Nat → List Nat)
    (assets : List AssetEntry) :
    ∀ (paths : List (List Char)) (nameOff fileOff : Nat),
      ∀ ch ∈ (packLoop compress comp assets paths nameOff fileOff).2,
        ch.length % 0x800 = 0 := by
  intro paths
  induction paths with
  | nil => intro _ _ ch hch; simp [packLoop] at hch
  | cons q qs ih =>
    intro nameOff fileOff ch hch
    simp only [packLoop, List.mem_cons] at hch
    rcases hch with h | h
    · subst h
      rw [List.length_append, List.length_replicate, Padding_rest_add]
      exact Padding_mod _
    · exact ih _ _ ch h

/-- C8: in every pack invocation the header-declared `tocByteLength` and
`stringTableByteLength` are multiples of 0x800, and every entry's on-disk
payload length (payload bytes plus its trailing zero padding, line 150) is a
multiple of 0x800. -/
theorem claim_C8 (compress : Bool) (comp : List Nat → List Nat)
    (assets : List AssetEntry) :
    packEstTOC assets % 0x800 = 0 ∧ packEstST assets % 0x800 = 0 ∧
      ∀ ch ∈ packChunks compress comp assets, ch.length % 0x800 = 0 :=
  ⟨Padding_mod _, Padding_mod _,
    fun ch hch => packLoop_chunk_len compress comp assets (packPaths assets)
      0 (0x800 + packEstTOC assets + packEstST assets) ch hch⟩

/-- Witness for C8 at the lone-directory tree (whose single chunk is empty). -/
theorem claim_C8_witness :
    ([] : List Nat) ∈ packChunks false idCodec c7Assets ∧
      (([] : List Nat).length % 0x800 = 0 ∧
        packEstTOC c7Assets % 0x800 = 0 ∧ packEstST c7Assets % 0x800 = 0) :=
  ⟨by decide,
    ⟨(claim_C8 false idCodec c7Assets).2.2 [] (by decide),
      (claim_C8 false idCodec c7Assets).1, (claim_C8 false idCodec c7Assets).2.1⟩⟩

/-! ### Missing destination root (C9) -/

/-- Counterexample for C9 as frozen: unpacking an EMPTY archive (entryCount
= 0, as produced by packing an empty tree) into a nonexistent destination
root raises nothing — the existence check (lines 91-92) sits inside the
per-entry loop, which never runs. -/
theorem claim_C9_counterexample :
    fromLE (((pack false idCodec []).drop 4).take 4) = 0 ∧
      unpack idCodec (pack false idCodec []) false = some (Except.ok []) :=
  ⟨rfl, rfl⟩

theorem decodeAllPacked_length (table : List Nat) :
    ∀ (offs : List Nat) (prev : List Char),
      (decodeAllPacked table offs prev).length = offs.length := by
  intro offs
  induction offs with
  | nil => intro prev; rfl
  | cons o rest ih => intro prev; simp only [decodeAllPacked, List.length_cons, ih]

theorem mapM_some_length {α β : Type} (f : α → Option β) :
    ∀ (l : List α) (res : List β), l.mapM f = some res → res.length = l.length := by
  intro l
  induction l with
  | nil =>
    intro res h
    rw [List.mapM_nil] at h
    simp only [Option.pure_def, Option.some.injEq] at h
    rw [← h]
    rfl
  | cons a as ih =>
    intro res h
    rw [List.mapM_cons] at h
    cases hfa : f a with
    | none => rw [hfa] at h; simp at h
    | some b =>
      rw [hfa] at h
      cases hrest : as.mapM f with
      | none => rw [hrest] at h; simp at h
      | some bs =>
        rw [hrest] at h
        simp only [Option.bind_eq_bind, Option.some_bind, Option.pure_def,
          Option.some.injEq] at h
        rw [← h, List.length_cons, ih bs hrest, List.length_cons]

theorem readTOC_length (archive : List Nat) (n : Nat) :
    (readTOC archive n).length = n := by
  simp [readTOC]

/-- C9 (amended): whenever the archive declares at least one TOC entry and
the destination root does not exist, any terminating run of unpack ends in
the "Output directory does not exist" error, raised at the top of the first
loop iteration — before anything is written or created.  (With zero entries
the loop body never runs and unpack succeeds; see the counterexample.) -/
theorem claim_C9 (decomp : List Nat → List Nat) (archive : List Nat)
    (r : Except String (List (List Char × List Nat)))
    (hn : 0 < fromLE ((archive.drop 4).take 4))
    (hr : unpack decomp archive false = some r) :
    r = Except.error "Output directory does not exist" := by
  simp only [unpack] at hr
  set numFiles := fromLE ((archive.drop 4).take 4) with hnf
  set entries := readTOC archive numFiles with hent
  have hlen : entries.length = numFiles := readTOC_length archive numFiles
  have hmain : ∀ (names : List (List Char)), names.length = numFiles →
      extractLoop decomp archive false (entries.zip names) = r →
      r = Except.error "Output directory does not exist" := by
    intro names hnames hext
    cases hE : entries with
    | nil => rw [hE] at hlen; simp at hlen; omega
    | cons e es =>
      cases hN : names with
      | nil => rw [hN] at hnames; simp at hnames; omega
      | cons nm nms =>
        rw [hE, hN, List.zip_cons_cons] at hext
        have hstep : extractLoop decomp archive false ((e, nm) :: es.zip nms) =
            Except.error "Output directory does not exist" := rfl
        rw [hstep] at hext
        exact hext.symm
  by_cases h1 : (archive.take 4).map Char.ofNat = ['D', 'a', 'v', 'e']
  · rw [if_pos h1, Option.map_some'] at hr
    simp only [Option.some.injEq] at hr
    refine hmain _ ?_ hr
    rw [decodeAllPacked_length, List.length_map, hlen]
  · by_cases h2 : (archive.take 4).map Char.ofNat = ['D', 'A', 'V', 'E']
    · rw [if_neg h1, if_pos h2] at hr
      cases hm : entries.mapM (fun e => rawDecode ((archive.drop
          (0x800 + fromLE ((archive.drop 8).take 4))).take
            (fromLE ((archive.drop 12).take 4))) e.nameOffset) with
      | none => rw [hm] at hr; simp at hr
      | some names =>
        rw [hm, Option.map_some'] at hr
        simp only [Option.some.injEq] at hr
        refine hmain names ?_ hr
        rw [mapM_some_length _ entries names hm, hlen]
    · rw [if_neg h1, if_neg h2, Option.map_some'] at hr
      simp only [Option.some.injEq] at hr
      refine hmain _ ?_ hr
      rw [List.length_map, hlen]

/-- Witness for C9 at a one-entry archive with a missing destination root:
unpack terminates with exactly the raised error. -/
theorem claim_C9_witness :
    (0 < fromLE ((([88, 88, 88, 88, 1, 0, 0, 0] : List Nat).drop 4).take 4) ∧
      unpack idCodec [88, 88, 88, 88, 1, 0, 0, 0] false =
        some (Except.error "Output directory does not exist")) ∧
      (Except.error "Output directory does not exist" :
          Except String (List (List Char × List Nat))) =
        Except.error "Output directory does not exist" :=
  ⟨⟨by decide, rfl⟩,
    claim_C9 idCodec [88, 88, 88, 88, 1, 0, 0, 0]
      (Except.error "Output directory does not exist") (by decide) rfl⟩

end DavePacker
